import Mathlib

/-!
Verification of the marketing campaign scheduler of the CMS-GB repository.

The development shallowly embeds the JavaScript sources:
  src/lib/tokens.js       (fillTokens, the token renderer)
  src/lib/marketing.js    (enrollContacts, rateLimiterState, marketingTick)

Machine strings are Lean String values, JavaScript numbers are Int or Nat,
timestamps are minutes on an integer timeline (ISO strings compare exactly
like the minute values they denote), nullable values are Option, and the
SQLite tables are Lean lists of records.  The email transport and the
random generator are oracle parameters, as the spec treats them as
external capabilities.
-/

namespace CMS

/-! ## Token renderer, from src/lib/tokens.js -/

/-- Variable mapping passed to the renderer: an association list whose
values may be null (mirrors a JavaScript object with nullable fields). -/
abbrev Vars := List (String × Option String)

/-- Finds the first occurrence of the two-character pattern `a b` in a list
of characters and splits around it, mirroring String.indexOf of a
two-character needle in tokens.js. -/
def breakOn2 (a b : Char) : List Char → Option (List Char × List Char)
  | [] => none
  | [_] => none
  | c :: d :: rest =>
    if c = a ∧ d = b then some ([], rest)
    else
      match breakOn2 a b (d :: rest) with
      | some (pre, post) => some (c :: pre, post)
      | none => none

/-- JavaScript String.prototype.trim on a character list. -/
def jsTrim (cs : List Char) : List Char :=
  ((cs.dropWhile Char.isWhitespace).reverse.dropWhile Char.isWhitespace).reverse

/-- Splits the placeholder body on the pipe character, trimming each part,
exactly as the character loop in fillTokens does. -/
def splitPipes (buf : List Char) : List Char → List String
  | [] => [String.mk (jsTrim buf)]
  | c :: rest =>
    if c = '|' then String.mk (jsTrim buf) :: splitPipes [] rest
    else splitPipes (buf ++ [c]) rest

/-- The four transform keywords recognised by fillTokens. -/
def transformWords : List String := ["upper", "lower", "title", "trim"]

/-- Lower-cases a string character by character, as toLowerCase does on
ASCII input. -/
def lowerStr (s : String) : String := String.mk (s.data.map Char.toLower)

/-- Parsed form of one placeholder: the variable name, the optional
default (first token that is not a transform keyword wins), and the
transform keywords in source order. -/
structure ParsedToken where
  name : String
  dflt : Option String
  trs : List String
deriving DecidableEq

/-- Parses the text between the braces: trim, split on pipes, take the
head as the variable name, then classify the remaining parts. -/
def parseToken (raw : List Char) : ParsedToken :=
  let parts := splitPipes [] (jsTrim raw)
  let name := parts.headD ""
  let fin := parts.tail.foldl
    (fun (acc : Option String × List String) p =>
      let low := lowerStr p
      if low ∈ transformWords then (acc.1, acc.2 ++ [low])
      else match acc.1 with
        | none => (some p, acc.2)
        | some _ => acc)
    (none, [])
  ⟨name, fin.1, fin.2⟩

/-- Looks up a key in the variable mapping; the outer Option is presence
of the key, the inner Option is nullability of the value. -/
def lookupVar (vars : Vars) (name : String) : Option (Option String) :=
  (vars.find? (fun kv => kv.1 == name)).map (fun kv => kv.2)

/-- Resolution rule of fillTokens: an absent key, a null value and the
empty string all fall back to the default, or to the empty string when no
default was given. -/
def resolveVar (vars : Vars) (name : String) (dflt : Option String) : String :=
  match lookupVar vars name with
  | some (some s) => if s = "" then dflt.getD "" else s
  | some none => dflt.getD ""
  | none => dflt.getD ""

/-- Splits a character list on single spaces, as String.prototype.split
with a one-space separator. -/
def splitSpaces (buf : List Char) : List Char → List (List Char)
  | [] => [buf]
  | c :: rest =>
    if c = ' ' then buf :: splitSpaces [] rest
    else splitSpaces (buf ++ [c]) rest

/-- Capitalises one word: first character upper-cased, the rest
lower-cased; the empty word is left alone. -/
def titleWord : List Char → List Char
  | [] => []
  | c :: rest => c.toUpper :: rest.map Char.toLower

/-- The title transform: split on spaces, capitalise each word, rejoin. -/
def titleCase (cs : List Char) : List Char :=
  List.intercalate [' '] ((splitSpaces [] cs).map titleWord)

/-- Applies one named transform; unknown names leave the string alone. -/
def applyTransform (s : String) (t : String) : String :=
  if t = "trim" then String.mk (jsTrim s.data)
  else if t = "upper" then String.mk (s.data.map Char.toUpper)
  else if t = "lower" then String.mk (s.data.map Char.toLower)
  else if t = "title" then String.mk (titleCase s.data)
  else s

/-- Applies the transforms left to right, in source order. -/
def applyTransforms (trs : List String) (s : String) : String :=
  trs.foldl applyTransform s

/-- Renders one placeholder: parse, resolve against the variables, then
apply the transforms. -/
def renderPlaceholder (raw : List Char) (vars : Vars) : String :=
  let p := parseToken raw
  applyTransforms p.trs (resolveVar vars p.name p.dflt)

/-- The scanning loop of fillTokens.  The fuel argument bounds the number
of loop iterations; each iteration of the source loop consumes at least
four characters, so fuel equal to the template length makes the function
agree with the unbounded JavaScript loop on every input. -/
def fillAux (vars : Vars) : Nat → List Char → List Char
  | 0, cs => cs
  | fuel + 1, cs =>
    match breakOn2 '\x7b' '\x7b' cs with
    | none => cs
    | some (before, afterOpen) =>
      match breakOn2 '\x7d' '\x7d' afterOpen with
      | none => before ++ '\x7b' :: '\x7b' :: afterOpen
      | some (raw, rest) =>
        before ++ (renderPlaceholder raw vars).data ++ fillAux vars fuel rest

/-- The public renderer of src/lib/tokens.js. -/
def fillTokens (template : String) (vars : Vars) : String :=
  String.mk (fillAux vars template.data.length template.data)

/-! ## Data model, from the schema in src/lib/marketing.js -/

/-- Row of marketing_campaign_steps.  Nullable text columns are Option;
weight_b defaults to 0 at insertion, so it is a plain integer. -/
structure Step where
  id : Nat
  campaign_id : String
  step_order : Int
  delay_minutes : Int
  subject : String
  body : String
  subject_b : Option String
  body_b : Option String
  weight_b : Int
deriving DecidableEq

/-- Columns of the contacts table that the due-enrollment join reads. -/
structure Contact where
  id : String
  email : String
  first_name : String
  last_name : String
  company : String
deriving DecidableEq

/-- Row of marketing_enrollments.  Timestamps are minutes on the model
timeline; data_json is the parsed variable snapshot. -/
structure Enrollment where
  id : Nat
  campaign_id : String
  contact_id : String
  status : String
  next_step_order : Int
  next_run_at : Int
  last_sent_at : Option Int
  data_json : Option Vars
  created_at : Int
  updated_at : Int
deriving DecidableEq

/-- Row of marketing_sends; meta_variant is the variant recorded in the
meta JSON column. -/
structure SendRow where
  id : Nat
  contact_id : String
  campaign_id : String
  step_order : Int
  provider : String
  provider_id : Option String
  status : String
  subject : String
  body : String
  to_email : String
  meta_variant : String
  sent_at : Int
  updated_at : Int
deriving DecidableEq

/-- The marketing_config key-value table, restricted to the five keys the
scheduler reads and writes; a missing row is none. -/
structure Config where
  quiet_start : Option Int
  quiet_end : Option Int
  rate_per_hour : Option Int
  rate_bucket : Option Int
  rate_count : Option Int
deriving DecidableEq

/-- The durable store owned by the scheduler. -/
structure DB where
  steps : List Step
  contacts : List Contact
  enrollments : List Enrollment
  sends : List SendRow
  suppressions : List String
  config : Config
deriving DecidableEq

/-- Result record of one transport call, as in the sendEmail contract. -/
structure SendResult where
  ok : Bool
  id : Option String
  provider : Option String
  status : Option String
deriving DecidableEq

/-- External capabilities of the scheduler: the transport (indexed by the
ordinal of the call; an error value models a thrown exception), the
random draws of chooseVariant (indexed by the ordinal of the draw), and
the environment strings. -/
structure Env where
  transport : Nat → Except Unit SendResult
  rand : Nat → Int
  month : String
  sender_name : Option String
  sender_from : Option String

/-- JavaScript x || d on a nullable string: null and the empty string both
fall back to the default. -/
def orJs (o : Option String) (d : String) : String :=
  match o with
  | some s => if s = "" then d else s
  | none => d

/-- JavaScript truthiness of a nullable string. -/
def truthy (o : Option String) : Bool :=
  match o with
  | some s => s ≠ ""
  | none => false

/-- JavaScript x || null on a nullable string: the empty string collapses
to null. -/
def orNullJs (o : Option String) : Option String :=
  match o with
  | some s => if s = "" then none else some s
  | none => none

/-! ## Clock arithmetic.  A timestamp is minutes since the epoch; days are
1440 minutes, hours 60.  The model identifies local time with UTC. -/

/-- Hour of day of a timestamp, as Date.prototype.getHours. -/
def localHour (t : Int) : Int := (t.emod 1440).ediv 60

/-- Tomorrow at the given hour, zero minutes: the reschedule target of the
quiet-hours branch. -/
def tomorrowAtHour (t h : Int) : Int := (t.ediv 1440 + 1) * 1440 + h * 60

/-- Hour bucket key of the rate limiter; distinct hours give distinct
keys, as the year-month-day-hour string does. -/
def bucketOf (t : Int) : Int := t.ediv 60

/-- The quiet-hours predicate withinQuietHours of marketing.js: an
ordinary window when start is at most end, an overnight window
otherwise. -/
def withinQuietHours (nowHour s e : Int) : Bool :=
  if s ≤ e then decide (s ≤ nowHour) && decide (nowHour < e)
  else decide (nowHour ≥ s) || decide (nowHour < e)

/-! ## Rate limiter, from rateLimiterState in marketing.js -/

/-- The configured hourly allowance: Number of rate_per_hour, with the
textual default of 200. -/
def rlAllowed (cfg : Config) : Int := cfg.rate_per_hour.getD 200

/-- Lazy bucket reset performed when rateLimiterState is constructed: if
the stored bucket key differs from the key of the current hour, adopt the
new key and reset the count to zero. -/
def rlInit (nowBucket : Int) (cfg : Config) : Config :=
  if cfg.rate_bucket = some nowBucket then cfg
  else { cfg with rate_bucket := some nowBucket, rate_count := some 0 }

/-- The take operation: refuse when the count would exceed the allowance,
otherwise increment and persist the count. -/
def rlTake (allowed n : Int) (cfg : Config) : Bool × Config :=
  let c := cfg.rate_count.getD 0
  if c + n > allowed then (false, cfg)
  else (true, { cfg with rate_count := some (c + n) })

/-! ## Enrollment creation, from enrollContacts in marketing.js -/

/-- COALESCE(MIN(delay_minutes), 0) over the steps of one campaign: the
seed delay used by enrollContacts. -/
def minDelay (steps : List Step) (campaignId : String) : Int :=
  match (steps.filter (fun s => s.campaign_id == campaignId)).map
      (fun s => s.delay_minutes) with
  | [] => 0
  | d :: ds => ds.foldl min d

/-- INSERT OR IGNORE against the unique (campaign_id, contact_id)
constraint of marketing_enrollments. -/
def insertIgnoreEnroll (table : List Enrollment) (row : Enrollment) :
    List Enrollment :=
  if table.any (fun x =>
      x.campaign_id == row.campaign_id && x.contact_id == row.contact_id)
  then table else table ++ [row]

/-- Return record of enrollContacts, extended with the resulting table. -/
structure EnrollResult where
  created : Nat
  next_run_at : Int
  table : List Enrollment
deriving DecidableEq

/-- The insertion loop of enrollContacts: one INSERT OR IGNORE per contact
id, with the created counter incremented unconditionally. -/
def enrollGo (campaignId : String) (nextRun : Int) (now : Int)
    (varsByContact : String → Option Vars) :
    List String → List Enrollment → Nat → Nat → List Enrollment × Nat
  | [], tbl, created, _ => (tbl, created)
  | cid :: rest, tbl, created, k =>
    let row : Enrollment :=
      { id := k, campaign_id := campaignId, contact_id := cid,
        status := "active", next_step_order := 1, next_run_at := nextRun,
        last_sent_at := none, data_json := varsByContact cid,
        created_at := now, updated_at := now }
    enrollGo campaignId nextRun now varsByContact rest
      (insertIgnoreEnroll tbl row) (created + 1) (k + 1)

/-- enrollContacts: seed next_run_at as the start time plus the minimum
step delay of the campaign, then insert one active enrollment per contact
id at step order 1.  Fresh row ids are drawn from baseId upward, standing
in for cuid. -/
def enrollContacts (steps : List Step) (table : List Enrollment)
    (campaignId : String) (contactIds : List String) (startAt : Option Int)
    (now : Int) (varsByContact : String → Option Vars) (baseId : Nat) :
    EnrollResult :=
  let base := startAt.getD now
  let nextRun := base + minDelay steps campaignId
  let fin := enrollGo campaignId nextRun now varsByContact contactIds table 0 baseId
  { created := fin.2, next_run_at := nextRun, table := fin.1 }

/-! ## Tick engine, from marketingTick in marketing.js -/

/-- The stepQuery prepared statement: the step of a campaign with an exact
step_order value. -/
def stepQuery (steps : List Step) (campaignId : String) (ord : Int) :
    Option Step :=
  steps.find? (fun s => s.campaign_id == campaignId && s.step_order == ord)

/-- The updEnroll prepared statement: set next_step_order, next_run_at,
last_sent_at and updated_at on the row with the given id. -/
def updEnroll (table : List Enrollment) (eid : Nat) (nso : Int) (nra : Int)
    (lsa : Option Int) (upd : Int) : List Enrollment :=
  table.map (fun x =>
    if x.id = eid then
      { x with next_step_order := nso, next_run_at := nra,
               last_sent_at := lsa, updated_at := upd }
    else x)

/-- The markDone prepared statement: set status to completed on the row
with the given id. -/
def markDone (table : List Enrollment) (eid : Nat) (upd : Int) :
    List Enrollment :=
  table.map (fun x =>
    if x.id = eid then { x with status := "completed", updated_at := upd }
    else x)

/-- chooseVariant: always A without alternate content, otherwise B exactly
when the uniform draw in [0,100) is below weight_b. -/
def chooseVariant (step : Step) (draw : Int) : String :=
  if truthy step.subject_b = false ∧ truthy step.body_b = false then "A"
  else if draw < step.weight_b then "B" else "A"

/-- Rendered content of one send. -/
structure Content where
  subject : String
  text : String
  html : String
deriving DecidableEq

/-- Global replacement of newlines by br tags, as the html projection in
buildContent. -/
def replaceNl : List Char → List Char
  | [] => []
  | c :: rest =>
    if c = '\n' then '<' :: 'b' :: 'r' :: '/' :: '>' :: replaceNl rest
    else c :: replaceNl rest

/-- buildContent: pick the variant text when variant B has truthy
alternate content, render both fields through fillTokens, and derive the
html body. -/
def buildContent (step : Step) (variant : String) (vars : Vars) : Content :=
  let subj := if variant = "B" ∧ truthy step.subject_b then
      step.subject_b.getD "" else step.subject
  let bodyT := if variant = "B" ∧ truthy step.body_b then
      step.body_b.getD "" else step.body
  let subject := fillTokens subj vars
  let text := fillTokens bodyT vars
  { subject := subject, text := text, html := String.mk (replaceNl text.data) }

/-- The fallback variable set derived from the live contact fields when
the enrollment carries no snapshot. -/
def defaultVars (c : Contact) (env : Env) : Vars :=
  [("first_name", some c.first_name),
   ("last_name", some c.last_name),
   ("company", some c.company),
   ("month", some env.month),
   ("sender_name", some (orJs env.sender_name "Team"))]

/-- The observability counters returned by a tick. -/
structure Counts where
  processed : Nat
  sent : Nat
  queued : Nat
  suppressed : Nat
  completed : Nat
  skipped_quiet : Nat
deriving DecidableEq

/-- In-flight state of one tick: the store, the counters, the ordinal of
the next transport call and of the next random draw. -/
structure TickSt where
  db : DB
  counts : Counts
  sendIx : Nat
  drawIx : Nat
deriving DecidableEq

/-- Outcome of processing one due enrollment: continue with the next one,
stop the whole tick (the rate-limit break), or abort with a thrown
exception from the transport. -/
inductive StepOut where
  | cont (st : TickSt)
  | stop (st : TickSt)
  | fail (st : TickSt)
deriving DecidableEq

/-- The state carried by any outcome. -/
def StepOut.state : StepOut → TickSt
  | .cont st => st
  | .stop st => st
  | .fail st => st

/-- The body of the per-enrollment loop of marketingTick, for one due
enrollment joined with its contact.  Mirrors the source order: increment
processed, suppression check, step lookup, quiet-hours gate, rate-limit
gate, compose, send, log, advance. -/
def stepEnroll (env : Env) (allowed : Int) (okWindow : Bool)
    (quietStartH now : Int) (ec : Enrollment × Contact) (st0 : TickSt) :
    StepOut :=
  let e := ec.1
  let c := ec.2
  let st := { st0 with counts :=
    { st0.counts with processed := st0.counts.processed + 1 } }
  if st.db.suppressions.contains e.contact_id then
    match stepQuery st.db.steps e.campaign_id (e.next_step_order + 1) with
    | some s2 =>
      let enr := updEnroll st.db.enrollments e.id (e.next_step_order + 1)
        (now + s2.delay_minutes) none now
      let cts := { st.counts with suppressed := st.counts.suppressed + 1 }
      .cont { st with db := { st.db with enrollments := enr }, counts := cts }
    | none =>
      let enr := markDone st.db.enrollments e.id now
      let cts := { st.counts with
        suppressed := st.counts.suppressed + 1,
        completed := st.counts.completed + 1 }
      .cont { st with db := { st.db with enrollments := enr }, counts := cts }
  else
    match stepQuery st.db.steps e.campaign_id e.next_step_order with
    | none =>
      let enr := markDone st.db.enrollments e.id now
      let cts := { st.counts with completed := st.counts.completed + 1 }
      .cont { st with db := { st.db with enrollments := enr }, counts := cts }
    | some step =>
      if okWindow = false then
        let enr := updEnroll st.db.enrollments e.id e.next_step_order
          (tomorrowAtHour now quietStartH) e.last_sent_at now
        let cts := { st.counts with
          skipped_quiet := st.counts.skipped_quiet + 1 }
        .cont { st with db := { st.db with enrollments := enr }, counts := cts }
      else
        match rlTake allowed 1 st.db.config with
        | (false, _) => .stop st
        | (true, cfg2) =>
          let st1 := { st with db := { st.db with config := cfg2 } }
          let vars := e.data_json.getD (defaultVars c env)
          let hasAlt := truthy step.subject_b || truthy step.body_b
          let variant := chooseVariant step (env.rand st1.drawIx)
          let st2 := { st1 with
            drawIx := st1.drawIx + (if hasAlt then 1 else 0) }
          let content := buildContent step variant vars
          match env.transport st2.sendIx with
          | .error _ => .fail st2
          | .ok result =>
            let status := orJs result.status
              (if result.ok then "sent" else "queued")
            let row : SendRow :=
              { id := st2.sendIx, contact_id := e.contact_id,
                campaign_id := e.campaign_id, step_order := e.next_step_order,
                provider := orJs result.provider "mock",
                provider_id := orNullJs result.id, status := status,
                subject := content.subject, body := content.text,
                to_email := c.email, meta_variant := variant,
                sent_at := now, updated_at := now }
            let cts3 := if status = "sent" then
                { st2.counts with sent := st2.counts.sent + 1 }
              else { st2.counts with queued := st2.counts.queued + 1 }
            let st3 := { st2 with
              db := { st2.db with sends := st2.db.sends ++ [row] },
              counts := cts3, sendIx := st2.sendIx + 1 }
            match stepQuery st3.db.steps e.campaign_id (e.next_step_order + 1) with
            | some s2 =>
              let enr := updEnroll st3.db.enrollments e.id
                (e.next_step_order + 1) (now + s2.delay_minutes) (some now) now
              .cont { st3 with db := { st3.db with enrollments := enr } }
            | none =>
              let enr := markDone st3.db.enrollments e.id now
              let cts := { st3.counts with
                completed := st3.counts.completed + 1 }
              let db4 := { st3.db with enrollments := enr }
              .cont { st3 with db := db4, counts := cts }

/-- The per-tick loop over the due batch: continue, stop early on the
rate-limit break, or propagate a thrown transport exception. -/
def tickLoop (env : Env) (allowed : Int) (okWindow : Bool)
    (quietStartH now : Int) :
    List (Enrollment × Contact) → TickSt → Except TickSt TickSt
  | [], st => .ok st
  | ec :: rest, st =>
    match stepEnroll env allowed okWindow quietStartH now ec st with
    | .cont st1 => tickLoop env allowed okWindow quietStartH now rest st1
    | .stop st1 => .ok st1
    | .fail st1 => .error st1

/-- State reached by a tick, whether it returned or threw. -/
def finalSt : Except TickSt TickSt → TickSt
  | .ok st => st
  | .error st => st

/-- Configuration seeding in ensureMarketingSchema: missing quiet hours
and rate rows receive the textual defaults 09, 18 and 200. -/
def ensureConfig (cfg : Config) : Config :=
  { cfg with
    quiet_start := some (cfg.quiet_start.getD 9),
    quiet_end := some (cfg.quiet_end.getD 18),
    rate_per_hour := some (cfg.rate_per_hour.getD 200) }

/-- The due-enrollment selection: active rows whose next_run_at has
passed, inner-joined with contacts, ordered by next_run_at ascending and
limited to the batch size. -/
def dueList (db : DB) (now : Int) (batch : Nat) :
    List (Enrollment × Contact) :=
  let base := db.enrollments.filter (fun e =>
    e.status == "active" && decide (e.next_run_at ≤ now))
  let joined := base.filterMap (fun e =>
    (db.contacts.find? (fun c => c.id == e.contact_id)).map (fun c => (e, c)))
  (joined.insertionSort (fun a b => a.1.next_run_at ≤ b.1.next_run_at)).take batch

/-- marketingTick: ensure the configuration rows, read the quiet-hours
bounds, evaluate the window, construct the rate limiter (lazy bucket
reset), pull the due batch and run the loop with zeroed counters. -/
def marketingTick (env : Env) (now : Int) (batch : Nat) (db : DB) :
    Except TickSt TickSt :=
  let db0 := { db with config := ensureConfig db.config }
  let quietStart := db0.config.quiet_start.getD 9
  let quietEnd := db0.config.quiet_end.getD 18
  let okWindow := withinQuietHours (localHour now) quietStart quietEnd
  let allowed := rlAllowed db0.config
  let db1 := { db0 with config := rlInit (bucketOf now) db0.config }
  let due := dueList db1 now batch
  tickLoop env allowed okWindow quietStart now due
    { db := db1, counts := ⟨0, 0, 0, 0, 0, 0⟩, sendIx := 0, drawIx := 0 }

/-! ## Iterated take, the scenario of the rate-limiter claim -/

/-- Runs k consecutive take(1) calls, collecting the returned booleans and
threading the persisted configuration. -/
def rlTakeSeq (allowed : Int) : Nat → Config → List Bool × Config
  | 0, cfg => ([], cfg)
  | k + 1, cfg =>
    let r := rlTake allowed 1 cfg
    let rest := rlTakeSeq allowed k r.2
    (r.1 :: rest.1, rest.2)

/-! ## Concrete instances used by witnesses and counterexamples -/

/-- Transport result of the shipped fallback adapter: a failure result
with no send performed. -/
def resC1 : SendResult := ⟨false, none, some "mock", some "queued"⟩

/-- Environment whose transport always returns the failure result. -/
def envC1 : Env :=
  { transport := fun _ => .ok resC1, rand := fun _ => 0,
    month := "January", sender_name := none, sender_from := none }

/-- Environment whose transport always throws. -/
def envC1e : Env :=
  { transport := fun _ => .error (), rand := fun _ => 0,
    month := "January", sender_name := none, sender_from := none }

/-- A one-step campaign. -/
def stepC1 : Step := ⟨1, "camp", 1, 0, "S", "B", none, none, 0⟩

/-- A contact for the concrete runs. -/
def contactC1 : Contact := ⟨"ct1", "a@b.c", "Al", "S", "Acme"⟩

/-- A due active enrollment of that contact at step 1. -/
def enrC1 : Enrollment := ⟨10, "camp", "ct1", "active", 1, 0, none, none, 0, 0⟩

/-- Configuration with open quiet hours around hour 10 and allowance
200. -/
def cfgC1 : Config := ⟨some 9, some 18, some 200, none, none⟩

/-- Store with one due enrollment about to hit the transport. -/
def dbC1 : DB := ⟨[stepC1], [contactC1], [enrC1], [], [], cfgC1⟩

/-- Loop state over dbC1 with zeroed counters. -/
def stC1 : TickSt := ⟨dbC1, ⟨0, 0, 0, 0, 0, 0⟩, 0, 0⟩

/-- Steps whose first step delay (60) is not the minimum delay (0). -/
def stepsC2 : List Step :=
  [⟨1, "camp", 1, 60, "S1", "B1", none, none, 0⟩,
   ⟨2, "camp", 2, 0, "S2", "B2", none, none, 0⟩]

/-- Loop state whose rate bucket is exhausted: count 5 of allowance 5. -/
def stC3 : TickSt :=
  ⟨⟨[stepC1], [contactC1], [enrC1], [], [], ⟨some 9, some 18, some 5, some 10, some 5⟩⟩,
   ⟨0, 0, 0, 0, 0, 0⟩, 0, 0⟩

/-- A second due enrollment, used as the remainder of a batch. -/
def enrC3b : Enrollment := ⟨11, "camp", "ct2", "active", 1, 0, none, none, 0, 0⟩

/-- Loop state whose campaign has no step at the pointer of the due
enrollment. -/
def stC4 : TickSt :=
  ⟨⟨[⟨5, "camp", 5, 0, "S5", "B5", none, none, 0⟩], [contactC1], [enrC1], [], [],
    cfgC1⟩, ⟨0, 0, 0, 0, 0, 0⟩, 0, 0⟩

/-- Configuration holding a rate bucket with count zero. -/
def cfgC5 : Config := ⟨some 9, some 18, some 3, some 77, some 0⟩

/-- Loop state whose contact is on the suppression list. -/
def stC6 : TickSt :=
  ⟨⟨[stepC1, ⟨2, "camp", 2, 30, "S2", "B2", none, none, 0⟩], [contactC1],
    [enrC1], [], ["ct1"], cfgC1⟩, ⟨0, 0, 0, 0, 0, 0⟩, 0, 0⟩

/-- Loop state for the quiet-hours scenario of the spec: window 9 to 18,
tick at 21:00. -/
def stC7 : TickSt := stC1

/-- Store for the counters witness. -/
def dbC9 : DB := ⟨[stepC1], [contactC1], [enrC1], [], [], cfgC1⟩

/-- Existing table with a contact already enrolled in the campaign. -/
def tableC10 : List Enrollment :=
  [⟨3, "camp", "dup", "active", 2, 500, none, none, 0, 0⟩]

/-- The row of stC4 after its tick completes it. -/
def enrDoneC4 : Enrollment :=
  ⟨10, "camp", "ct1", "completed", 1, 0, none, none, 0, 600⟩

/-! ## Helper lemmas about one loop iteration -/

/-- Processing one enrollment never touches the steps table. -/
theorem stepEnroll_steps (env : Env) (allowed : Int) (okW : Bool) (qs now : Int)
    (ec : Enrollment × Contact) (st0 : TickSt) :
    ((stepEnroll env allowed okW qs now ec st0).state).db.steps = st0.db.steps := by
  unfold stepEnroll
  dsimp only
  repeat' split
  all_goals simp [StepOut.state]

/-- Counter arithmetic of one iteration: processed rises by exactly one,
the four disposition counters together rise by at most one, and completed
rises by at most one. -/
theorem stepEnroll_counts (env : Env) (allowed : Int) (okW : Bool) (qs now : Int)
    (ec : Enrollment × Contact) (st0 : TickSt) :
    (((stepEnroll env allowed okW qs now ec st0).state).counts.processed
        = st0.counts.processed + 1)
    ∧ (((stepEnroll env allowed okW qs now ec st0).state).counts.sent
        + ((stepEnroll env allowed okW qs now ec st0).state).counts.queued
        + ((stepEnroll env allowed okW qs now ec st0).state).counts.suppressed
        + ((stepEnroll env allowed okW qs now ec st0).state).counts.skipped_quiet
        ≤ st0.counts.sent + st0.counts.queued + st0.counts.suppressed
          + st0.counts.skipped_quiet + 1)
    ∧ (((stepEnroll env allowed okW qs now ec st0).state).counts.completed
        ≤ st0.counts.completed + 1) := by
  unfold stepEnroll
  dsimp only
  repeat' split
  all_goals simp [StepOut.state]
  all_goals omega

/-- A stop outcome is exactly the rate-limit break: the state is the
incoming one with only the processed counter bumped. -/
theorem stepEnroll_stop (env : Env) (allowed : Int) (okW : Bool) (qs now : Int)
    (ec : Enrollment × Contact) (st0 st1 : TickSt)
    (h : stepEnroll env allowed okW qs now ec st0 = .stop st1) :
    st1 = { st0 with counts :=
      { st0.counts with processed := st0.counts.processed + 1 } } := by
  unfold stepEnroll at h
  dsimp only at h
  repeat' split at h
  all_goals cases h
  all_goals rfl

/-- A thrown transport exception leaves the enrollment table and the send
log untouched. -/
theorem stepEnroll_fail (env : Env) (allowed : Int) (okW : Bool) (qs now : Int)
    (ec : Enrollment × Contact) (st0 st1 : TickSt)
    (h : stepEnroll env allowed okW qs now ec st0 = .fail st1) :
    st1.db.enrollments = st0.db.enrollments ∧ st1.db.sends = st0.db.sends := by
  unfold stepEnroll at h
  dsimp only at h
  repeat' split at h
  all_goals cases h
  all_goals exact ⟨rfl, rfl⟩

/-- Rows produced by updEnroll keep the status and the id of the row they
replace. -/
theorem updEnroll_mem {tbl : List Enrollment} {eid : Nat} {nso nra : Int}
    {lsa : Option Int} {upd : Int} {y1 : Enrollment}
    (h : y1 ∈ updEnroll tbl eid nso nra lsa upd) :
    ∃ y0 ∈ tbl, y1.status = y0.status ∧ y1.id = y0.id := by
  unfold updEnroll at h
  obtain ⟨y0, hy0, hf⟩ := List.mem_map.mp h
  refine ⟨y0, hy0, ?_⟩
  by_cases hc : y0.id = eid
  · simp only [if_pos hc] at hf
    subst hf; simp
  · simp only [if_neg hc] at hf
    subst hf; simp

/-- Rows produced by markDone either keep their status or carry the
targeted id. -/
theorem markDone_mem {tbl : List Enrollment} {eid : Nat} {upd : Int}
    {y1 : Enrollment} (h : y1 ∈ markDone tbl eid upd) :
    ∃ y0 ∈ tbl, y1.id = y0.id ∧ (y1.status = y0.status ∨ y1.id = eid) := by
  unfold markDone at h
  obtain ⟨y0, hy0, hf⟩ := List.mem_map.mp h
  refine ⟨y0, hy0, ?_⟩
  by_cases hc : y0.id = eid
  · simp only [if_pos hc] at hf
    subst hf; simp [hc]
  · simp only [if_neg hc] at hf
    subst hf; simp

/-- Completion provenance of one iteration: any completed row after the
iteration was already completed, or is the processed enrollment and an
exact-order step lookup at its pointer or at its successor came back
empty. -/
theorem stepEnroll_cont_completed (env : Env) (allowed : Int) (okW : Bool)
    (qs now : Int) (ec : Enrollment × Contact) (st0 st1 : TickSt)
    (h : stepEnroll env allowed okW qs now ec st0 = .cont st1) :
    ∀ y1 ∈ st1.db.enrollments, y1.status = "completed" →
      (∃ y0 ∈ st0.db.enrollments, y0.id = y1.id ∧ y0.status = "completed")
      ∨ (y1.id = ec.1.id
          ∧ (stepQuery st0.db.steps ec.1.campaign_id ec.1.next_step_order = none
             ∨ stepQuery st0.db.steps ec.1.campaign_id (ec.1.next_step_order + 1) = none)) := by
  unfold stepEnroll at h
  dsimp only at h
  repeat' split at h
  all_goals cases h
  all_goals intro y1 hy1 hcomp
  all_goals dsimp only at *
  all_goals first
    | (obtain ⟨y0, hy0, hst, hid⟩ := updEnroll_mem hy1
       exact Or.inl ⟨y0, hy0, hid.symm, hst ▸ hcomp⟩)
    | (obtain ⟨y0, hy0, hid, hor⟩ := markDone_mem hy1
       rcases hor with hst | hide
       · exact Or.inl ⟨y0, hy0, hid.symm, hst ▸ hcomp⟩
       · refine Or.inr ⟨hide, ?_⟩
         first
           | exact Or.inl (by assumption)
           | exact Or.inr (by assumption))

/-! ## Helper lemmas about the whole loop -/

/-- Counter arithmetic over a batch, in additive form suitable for
induction. -/
theorem tickLoop_counts (env : Env) (allowed : Int) (okW : Bool) (qs now : Int) :
    ∀ (due : List (Enrollment × Contact)) (st out : TickSt),
      tickLoop env allowed okW qs now due st = .ok out →
      out.counts.processed ≤ st.counts.processed + due.length
      ∧ out.counts.sent + out.counts.queued + out.counts.suppressed
          + out.counts.skipped_quiet + st.counts.processed
        ≤ st.counts.sent + st.counts.queued + st.counts.suppressed
          + st.counts.skipped_quiet + out.counts.processed
      ∧ out.counts.completed + st.counts.processed
        ≤ st.counts.completed + out.counts.processed := by
  intro due
  induction due with
  | nil =>
    intro st out h
    cases h
    omega
  | cons ec rest ih =>
    intro st out h
    rw [tickLoop] at h
    cases hse : stepEnroll env allowed okW qs now ec st with
    | cont st1 =>
      rw [hse] at h
      have hc := stepEnroll_counts env allowed okW qs now ec st
      rw [hse] at hc
      dsimp only [StepOut.state] at hc
      have := ih st1 out h
      simp only [List.length_cons]
      omega
    | stop st1 =>
      rw [hse] at h
      cases h
      have hs := stepEnroll_stop env allowed okW qs now ec st _ hse
      subst hs
      simp only [List.length_cons]
      omega
    | fail st1 =>
      rw [hse] at h
      cases h

/-- The steps table survives the whole loop unchanged, also on an early
stop or a thrown exception. -/
theorem tickLoop_steps_eq (env : Env) (allowed : Int) (okW : Bool) (qs now : Int) :
    ∀ (due : List (Enrollment × Contact)) (st : TickSt),
      (finalSt (tickLoop env allowed okW qs now due st)).db.steps
        = st.db.steps := by
  intro due
  induction due with
  | nil => intro st; rfl
  | cons ec rest ih =>
    intro st
    rw [tickLoop]
    cases hse : stepEnroll env allowed okW qs now ec st with
    | cont st1 =>
      have hst := stepEnroll_steps env allowed okW qs now ec st
      rw [hse] at hst
      dsimp only [StepOut.state] at hst
      rw [ih st1, hst]
    | stop st1 =>
      have hst := stepEnroll_steps env allowed okW qs now ec st
      rw [hse] at hst
      exact hst
    | fail st1 =>
      have hst := stepEnroll_steps env allowed okW qs now ec st
      rw [hse] at hst
      exact hst

/-- Completion provenance over a batch: every row completed by the loop
belongs to some processed due enrollment on which an exact-order step
lookup, at the pointer or at its successor, came back empty. -/
theorem tickLoop_completed (env : Env) (allowed : Int) (okW : Bool) (qs now : Int) :
    ∀ (due : List (Enrollment × Contact)) (st : TickSt),
      ∀ y ∈ (finalSt (tickLoop env allowed okW qs now due st)).db.enrollments,
        y.status = "completed" →
        (∃ y0 ∈ st.db.enrollments, y0.id = y.id ∧ y0.status = "completed")
        ∨ (∃ p ∈ due, y.id = p.1.id
            ∧ (stepQuery st.db.steps p.1.campaign_id p.1.next_step_order = none
               ∨ stepQuery st.db.steps p.1.campaign_id (p.1.next_step_order + 1) = none)) := by
  intro due
  induction due with
  | nil =>
    intro st y hy hcomp
    exact Or.inl ⟨y, hy, rfl, hcomp⟩
  | cons ec rest ih =>
    intro st y hy hcomp
    rw [tickLoop] at hy
    cases hse : stepEnroll env allowed okW qs now ec st with
    | cont st1 =>
      rw [hse] at hy
      have hst := stepEnroll_steps env allowed okW qs now ec st
      rw [hse] at hst
      dsimp only [StepOut.state] at hst
      rcases ih st1 y hy hcomp with ⟨y1, hy1, hid1, hc1⟩ | ⟨p, hp, hid, hfact⟩
      · rcases stepEnroll_cont_completed env allowed okW qs now ec st st1 hse y1 hy1 hc1
          with ⟨y0, hy0, hid0, hc0⟩ | ⟨hide, hfact⟩
        · exact Or.inl ⟨y0, hy0, hid0.trans hid1, hc0⟩
        · exact Or.inr ⟨ec, List.mem_cons_self _ _, hid1 ▸ hide, hfact⟩
      · rw [hst] at hfact
        exact Or.inr ⟨p, List.mem_cons_of_mem _ hp, hid, hfact⟩
    | stop st1 =>
      rw [hse] at hy
      have hs := stepEnroll_stop env allowed okW qs now ec st st1 hse
      subst hs
      exact Or.inl ⟨y, hy, rfl, hcomp⟩
    | fail st1 =>
      rw [hse] at hy
      have hf := (stepEnroll_fail env allowed okW qs now ec st st1 hse).1
      rw [finalSt] at hy
      rw [hf] at hy
      exact Or.inl ⟨y, hy, rfl, hcomp⟩

/-! ## Rate limiter lemmas -/

/-- As long as the allowance is not exhausted, consecutive take(1) calls
all succeed and the persisted count tracks the number of calls. -/
theorem rlTakeSeq_ok (allowed : Int) :
    ∀ (k : Nat) (m : Int) (cfg : Config), cfg.rate_count = some m →
      m + k ≤ allowed →
      rlTakeSeq allowed k cfg
        = (List.replicate k true, { cfg with rate_count := some (m + k) }) := by
  intro k
  induction k with
  | zero =>
    intro m cfg hm _
    simp only [rlTakeSeq, List.replicate]
    cases cfg
    simp_all
  | succ k ih =>
    intro m cfg hm hle
    have h1 : ¬(m + 1 > allowed) := by
      push_cast at hle
      omega
    have h2 : rlTake allowed 1 cfg
        = (true, { cfg with rate_count := some (m + 1) }) := by
      simp [rlTake, hm, h1]
    simp only [rlTakeSeq, h2]
    rw [ih (m + 1) _ rfl (by push_cast at hle ⊢; omega)]
    have h3 : m + 1 + (k : Int) = m + ((k + 1 : Nat) : Int) := by
      push_cast
      ring
    rw [h3]
    simp [List.replicate_succ]

/-- Splitting a run of take(1) calls into two consecutive runs. -/
theorem rlTakeSeq_append (allowed : Int) :
    ∀ (j k : Nat) (cfg : Config),
      rlTakeSeq allowed (j + k) cfg
        = ((rlTakeSeq allowed j cfg).1
             ++ (rlTakeSeq allowed k (rlTakeSeq allowed j cfg).2).1,
           (rlTakeSeq allowed k (rlTakeSeq allowed j cfg).2).2) := by
  intro j
  induction j with
  | zero => intro k cfg; simp [rlTakeSeq]
  | succ j ih =>
    intro k cfg
    have hn : j + 1 + k = (j + k) + 1 := by omega
    rw [hn]
    simp only [rlTakeSeq]
    rw [ih k]
    simp [rlTakeSeq]

/-! ## Claim C5 -/

/-- C5.  The take operation succeeds and increments the persisted count
by n exactly when count + n stays within the allowance, and otherwise
returns false leaving the whole persisted configuration, bucket key
included, unchanged; N consecutive take(1) calls in one hour all succeed
and the next one fails; a bucket constructed in a newly observed hour
adopts the new key with the count reset to zero, while the same hour
leaves the state untouched. -/
theorem rate_limiter_contract :
    (∀ (allowed n : Int) (cfg : Config),
      (cfg.rate_count.getD 0 + n ≤ allowed →
        rlTake allowed n cfg
          = (true, { cfg with rate_count := some (cfg.rate_count.getD 0 + n) }))
      ∧ (allowed < cfg.rate_count.getD 0 + n →
        rlTake allowed n cfg = (false, cfg)))
    ∧ (∀ (N : Nat) (cfg : Config), cfg.rate_count = some 0 →
        (rlTakeSeq (N : Int) (N + 1) cfg).1
          = List.replicate N true ++ [false])
    ∧ (∀ (nowB : Int) (cfg : Config), cfg.rate_bucket ≠ some nowB →
        (rlInit nowB cfg).rate_count = some 0
        ∧ (rlInit nowB cfg).rate_bucket = some nowB)
    ∧ (∀ (nowB : Int) (cfg : Config), cfg.rate_bucket = some nowB →
        rlInit nowB cfg = cfg) := by
  refine ⟨?_, ?_, ?_, ?_⟩
  · intro allowed n cfg
    constructor
    · intro hle
      have h1 : ¬(cfg.rate_count.getD 0 + n > allowed) := by omega
      simp [rlTake, h1]
    · intro hlt
      have h1 : cfg.rate_count.getD 0 + n > allowed := hlt
      simp [rlTake, h1]
  · intro N cfg hm
    rw [rlTakeSeq_append (N : Int) N 1 cfg]
    rw [rlTakeSeq_ok (N : Int) N 0 cfg hm (by omega)]
    have hgt : ((N : Int)) + 1 > (N : Int) := by omega
    simp [rlTakeSeq, rlTake, hgt]
  · intro nowB cfg hne
    simp [rlInit, hne]
  · intro nowB cfg he
    simp [rlInit, he]

/-- Witness for C5 at a concrete configuration with allowance 3. -/
theorem rate_limiter_contract_witness :
    rlTake 3 2 cfgC5
      = (true, { cfgC5 with rate_count := some (cfgC5.rate_count.getD 0 + 2) })
    ∧ (rlTakeSeq ((3 : Nat) : Int) (3 + 1) cfgC5).1
      = List.replicate 3 true ++ [false]
    ∧ (rlInit 78 cfgC5).rate_count = some 0
    ∧ rlInit 77 cfgC5 = cfgC5 :=
  ⟨(rate_limiter_contract.1 3 2 cfgC5).1 (by decide),
   rate_limiter_contract.2.1 3 cfgC5 (by decide),
   (rate_limiter_contract.2.2.1 78 cfgC5 (by decide)).1,
   rate_limiter_contract.2.2.2 77 cfgC5 (by decide)⟩

/-! ## Token renderer lemmas -/

/-- The two-character scanner finds the marker appended after text that
avoids its first character. -/
theorem breakOn2_marker (a b : Char) :
    ∀ (raw : List Char), a ∉ raw →
      breakOn2 a b (raw ++ [a, b]) = some (raw, []) := by
  intro raw
  induction raw with
  | nil => intro _; simp [breakOn2]
  | cons c cs ih =>
    intro h
    have hc : ¬(c = a) := fun hca => h (by simp [hca])
    have h2 : a ∉ cs := fun hm => h (List.mem_cons_of_mem _ hm)
    cases cs with
    | nil => simp [breakOn2, hc]
    | cons d ds =>
      have := ih h2
      simp only [List.cons_append] at this ⊢
      rw [breakOn2]
      rw [if_neg (by tauto)]
      rw [this]

/-- Rebuilding a string from its characters is the identity. -/
theorem string_mk_data (s : String) : String.mk s.data = s := rfl

/-- A template that is one placeholder renders to exactly the rendering
of that placeholder. -/
theorem fillTokens_single (raw : List Char) (vars : Vars)
    (h : '\x7d' ∉ raw) :
    fillTokens (String.mk ('\x7b' :: '\x7b' :: (raw ++ ['\x7d', '\x7d']))) vars
      = renderPlaceholder raw vars := by
  unfold fillTokens
  have hlen : (String.mk ('\x7b' :: '\x7b' :: (raw ++ ['\x7d', '\x7d']))).data.length
      = raw.length + 4 := by simp [String.mk]
  rw [hlen]
  have h4 : raw.length + 4 = (raw.length + 3) + 1 := rfl
  rw [h4]
  have hopen : breakOn2 '\x7b' '\x7b'
      ('\x7b' :: '\x7b' :: (raw ++ ['\x7d', '\x7d']))
      = some ([], raw ++ ['\x7d', '\x7d']) := by
    simp [breakOn2]
  have hclose := breakOn2_marker '\x7d' '\x7d' raw h
  simp only [fillAux, String.mk, hopen, hclose]
  simp [breakOn2, string_mk_data]

/-! ## Claim C8 -/

/-- C8.  Every placeholder is rendered by parsing its body (name, the
first non-transform part as the default, the transform keywords in
order), resolving the name against the variables with fallback to the
default on an absent, null or empty value, and applying the transforms
left to right; in particular the four concrete renderings of the claim
hold. -/
theorem fillTokens_resolution :
    (∀ (raw : List Char) (vars : Vars), '\x7d' ∉ raw →
      fillTokens (String.mk ('\x7b' :: '\x7b' :: (raw ++ ['\x7d', '\x7d']))) vars
        = applyTransforms (parseToken raw).trs
            (resolveVar vars (parseToken raw).name (parseToken raw).dflt))
    ∧ fillTokens "\x7b\x7bx|fallback\x7d\x7d" [] = "fallback"
    ∧ fillTokens "\x7b\x7bx|fallback\x7d\x7d" [("x", some "")] = "fallback"
    ∧ fillTokens "\x7b\x7bx|fallback\x7d\x7d" [("x", some "hi")] = "hi"
    ∧ fillTokens "\x7b\x7bx|there|title\x7d\x7d" [("x", some "bob smith")]
        = "Bob Smith" := by
  refine ⟨?_, by decide, by decide, by decide, by decide⟩
  intro raw vars h
  exact fillTokens_single raw vars h

/-- Witness for C8 at the placeholder of the claim. -/
theorem fillTokens_resolution_witness :
    fillTokens (String.mk ('\x7b' :: '\x7b' :: ("x|fallback".data ++ ['\x7d', '\x7d']))) []
      = applyTransforms (parseToken "x|fallback".data).trs
          (resolveVar [] (parseToken "x|fallback".data).name
            (parseToken "x|fallback".data).dflt) :=
  fillTokens_resolution.1 "x|fallback".data [] (by decide)

/-! ## Enrollment creation lemmas -/

/-- Rows already in the table survive one INSERT OR IGNORE. -/
theorem insertIgnore_mem {tbl : List Enrollment} {row x : Enrollment}
    (h : x ∈ tbl) : x ∈ insertIgnoreEnroll tbl row := by
  unfold insertIgnoreEnroll
  split
  · exact h
  · exact List.mem_append_left _ h

/-- A row of the table after one INSERT OR IGNORE is an old row or the
inserted row. -/
theorem insertIgnore_mem_rev {tbl : List Enrollment} {row x : Enrollment}
    (h : x ∈ insertIgnoreEnroll tbl row) : x ∈ tbl ∨ x = row := by
  unfold insertIgnoreEnroll at h
  split at h
  · exact Or.inl h
  · rcases List.mem_append.mp h with h1 | h1
    · exact Or.inl h1
    · exact Or.inr (List.mem_singleton.mp h1)

/-- The created counter of the insertion loop counts every contact id,
inserted or ignored. -/
theorem enrollGo_created (campaignId : String) (nextRun now : Int)
    (vbc : String → Option Vars) :
    ∀ (cids : List String) (tbl : List Enrollment) (created k : Nat),
      (enrollGo campaignId nextRun now vbc cids tbl created k).2
        = created + cids.length := by
  intro cids
  induction cids with
  | nil => intro tbl created k; simp [enrollGo]
  | cons cid rest ih =>
    intro tbl created k
    rw [enrollGo]
    rw [ih]
    simp only [List.length_cons]
    omega

/-- The insertion loop never removes or rewrites existing rows. -/
theorem enrollGo_preserve (campaignId : String) (nextRun now : Int)
    (vbc : String → Option Vars) :
    ∀ (cids : List String) (tbl : List Enrollment) (created k : Nat)
      (x : Enrollment), x ∈ tbl →
      x ∈ (enrollGo campaignId nextRun now vbc cids tbl created k).1 := by
  intro cids
  induction cids with
  | nil => intro tbl created k x hx; exact hx
  | cons cid rest ih =>
    intro tbl created k x hx
    rw [enrollGo]
    exact ih _ _ _ x (insertIgnore_mem hx)

/-- Every row added by the insertion loop is active at step order 1 with
the seeded due time. -/
theorem enrollGo_new_rows (campaignId : String) (nextRun now : Int)
    (vbc : String → Option Vars) :
    ∀ (cids : List String) (tbl : List Enrollment) (created k : Nat)
      (x : Enrollment),
      x ∈ (enrollGo campaignId nextRun now vbc cids tbl created k).1 →
      x ∈ tbl
      ∨ (x.status = "active" ∧ x.next_step_order = 1
          ∧ x.next_run_at = nextRun ∧ x.campaign_id = campaignId) := by
  intro cids
  induction cids with
  | nil => intro tbl created k x hx; exact Or.inl hx
  | cons cid rest ih =>
    intro tbl created k x hx
    rw [enrollGo] at hx
    rcases ih _ _ _ x hx with h1 | h1
    · rcases insertIgnore_mem_rev h1 with h2 | h2
      · exact Or.inl h2
      · subst h2
        exact Or.inr ⟨rfl, rfl, rfl, rfl⟩
    · exact Or.inr h1

/-! ## Claim C2 -/

/-- C2, counterexample.  In a campaign whose first step has delay 60 and
whose second step has delay 0, the enrollment created at time 1000 gets
next_run_at 1000, the minimum delay, not 1000 + 60, the delay of the
first step the claim demands. -/
theorem enroll_first_step_delay_cex :
    (enrollContacts stepsC2 [] "camp" ["ct1"] (some 1000) 500
      (fun _ => none) 0).next_run_at = 1000
    ∧ stepQuery stepsC2 "camp" 1
        = some ⟨1, "camp", 1, 60, "S1", "B1", none, none, 0⟩
    ∧ (1000 : Int) ≠ 1000 + 60 := by
  refine ⟨by decide, by decide, by decide⟩

/-- C2, amended.  Each newly created enrollment is active with
next_step_order 1, and its next_run_at is the start time plus the MINIMUM
delay_minutes over all steps of the campaign (zero for a stepless
campaign), which coincides with the delay of the first step only when
that delay is minimal. -/
theorem enrollContacts_seeds_min_delay :
    ∀ (steps : List Step) (table : List Enrollment) (campaignId : String)
      (cids : List String) (startAt : Option Int) (now : Int)
      (vbc : String → Option Vars) (baseId : Nat),
      (enrollContacts steps table campaignId cids startAt now vbc baseId).next_run_at
        = startAt.getD now + minDelay steps campaignId
      ∧ ∀ x ∈ (enrollContacts steps table campaignId cids startAt now vbc baseId).table,
          x ∉ table →
          x.status = "active" ∧ x.next_step_order = 1
            ∧ x.next_run_at = startAt.getD now + minDelay steps campaignId
            ∧ x.campaign_id = campaignId := by
  intro steps table campaignId cids startAt now vbc baseId
  constructor
  · rfl
  · intro x hx hnot
    rcases enrollGo_new_rows campaignId (startAt.getD now + minDelay steps campaignId)
        now vbc cids table 0 baseId x hx with h1 | h1
    · exact absurd h1 hnot
    · exact h1

/-- Witness for the amended C2 at the two-step campaign. -/
theorem enrollContacts_seeds_min_delay_witness :
    (enrollContacts stepsC2 [] "camp" ["ct1"] (some 1000) 500
        (fun _ => none) 0).next_run_at
      = (some (1000 : Int)).getD 500 + minDelay stepsC2 "camp"
    ∧ ((⟨0, "camp", "ct1", "active", 1, 1000, none, none, 500, 500⟩ : Enrollment).status = "active"
        ∧ (⟨0, "camp", "ct1", "active", 1, 1000, none, none, 500, 500⟩ : Enrollment).next_step_order = 1
        ∧ (⟨0, "camp", "ct1", "active", 1, 1000, none, none, 500, 500⟩ : Enrollment).next_run_at
            = (some (1000 : Int)).getD 500 + minDelay stepsC2 "camp"
        ∧ (⟨0, "camp", "ct1", "active", 1, 1000, none, none, 500, 500⟩ : Enrollment).campaign_id = "camp") :=
  ⟨(enrollContacts_seeds_min_delay stepsC2 [] "camp" ["ct1"] (some 1000) 500
      (fun _ => none) 0).1,
   (enrollContacts_seeds_min_delay stepsC2 [] "camp" ["ct1"] (some 1000) 500
      (fun _ => none) 0).2
     ⟨0, "camp", "ct1", "active", 1, 1000, none, none, 500, 500⟩ (by decide) (by decide)⟩

/-! ## Claim C10 -/

/-- C10.  The created count of enrollContacts always equals the number of
contact ids passed in, existing enrollments are preserved unchanged, and
at a contact already enrolled the reported count (1) exceeds the number
of rows actually added (0), the table coming back identical. -/
theorem enrollContacts_created_overcounts :
    (∀ (steps : List Step) (table : List Enrollment) (campaignId : String)
      (cids : List String) (startAt : Option Int) (now : Int)
      (vbc : String → Option Vars) (baseId : Nat),
      (enrollContacts steps table campaignId cids startAt now vbc baseId).created
        = cids.length
      ∧ ∀ x ∈ table,
          x ∈ (enrollContacts steps table campaignId cids startAt now vbc baseId).table)
    ∧ (enrollContacts [] tableC10 "camp" ["dup"] none 500 (fun _ => none) 7).created = 1
    ∧ (enrollContacts [] tableC10 "camp" ["dup"] none 500 (fun _ => none) 7).table
        = tableC10 := by
  refine ⟨?_, by decide, by decide⟩
  intro steps table campaignId cids startAt now vbc baseId
  constructor
  · have h := enrollGo_created campaignId
      (startAt.getD now + minDelay steps campaignId) now vbc cids table 0 baseId
    simpa [enrollContacts] using h
  · intro x hx
    exact enrollGo_preserve campaignId _ now vbc cids table 0 baseId x hx

/-- Witness for C10: a batch containing an already-enrolled contact still
counts it, and the pre-existing row survives. -/
theorem enrollContacts_created_overcounts_witness :
    (enrollContacts stepsC2 tableC10 "camp" ["dup", "new"] none 500
        (fun _ => none) 7).created = 2
    ∧ (⟨3, "camp", "dup", "active", 2, 500, none, none, 0, 0⟩ : Enrollment)
        ∈ (enrollContacts stepsC2 tableC10 "camp" ["dup", "new"] none 500
            (fun _ => none) 7).table :=
  ⟨(enrollContacts_created_overcounts.1 stepsC2 tableC10 "camp" ["dup", "new"]
      none 500 (fun _ => none) 7).1,
   (enrollContacts_created_overcounts.1 stepsC2 tableC10 "camp" ["dup", "new"]
      none 500 (fun _ => none) 7).2
     ⟨3, "camp", "dup", "active", 2, 500, none, none, 0, 0⟩ (by decide)⟩

/-! ## Frame lemmas for single-row table updates -/

/-- Rows with a different id pass through updEnroll unchanged. -/
theorem updEnroll_mem_other {tbl : List Enrollment} {eid : Nat} {nso nra : Int}
    {lsa : Option Int} {upd : Int} {x : Enrollment}
    (hx : x ∈ tbl) (hne : x.id ≠ eid) :
    x ∈ updEnroll tbl eid nso nra lsa upd := by
  unfold updEnroll
  have h2 := List.mem_map_of_mem (fun y : Enrollment =>
    if y.id = eid then
      { y with next_step_order := nso, next_run_at := nra,
               last_sent_at := lsa, updated_at := upd }
    else y) hx
  simpa [hne] using h2

/-- The row with the targeted id appears in the table with the four
updated fields. -/
theorem updEnroll_mem_target {tbl : List Enrollment} {eid : Nat} {nso nra : Int}
    {lsa : Option Int} {upd : Int} {x : Enrollment}
    (hx : x ∈ tbl) (he : x.id = eid) :
    ({ x with next_step_order := nso, next_run_at := nra,
              last_sent_at := lsa, updated_at := upd } : Enrollment)
      ∈ updEnroll tbl eid nso nra lsa upd := by
  unfold updEnroll
  have h2 := List.mem_map_of_mem (fun y : Enrollment =>
    if y.id = eid then
      { y with next_step_order := nso, next_run_at := nra,
               last_sent_at := lsa, updated_at := upd }
    else y) hx
  simpa [he] using h2

/-- Rows with a different id pass through markDone unchanged. -/
theorem markDone_mem_other {tbl : List Enrollment} {eid : Nat} {upd : Int}
    {x : Enrollment} (hx : x ∈ tbl) (hne : x.id ≠ eid) :
    x ∈ markDone tbl eid upd := by
  unfold markDone
  have h2 := List.mem_map_of_mem (fun y : Enrollment =>
    if y.id = eid then { y with status := "completed", updated_at := upd }
    else y) hx
  simpa [hne] using h2

/-- The row with the targeted id appears in the table marked completed. -/
theorem markDone_mem_target {tbl : List Enrollment} {eid : Nat} {upd : Int}
    {x : Enrollment} (hx : x ∈ tbl) (he : x.id = eid) :
    ({ x with status := "completed", updated_at := upd } : Enrollment)
      ∈ markDone tbl eid upd := by
  unfold markDone
  have h2 := List.mem_map_of_mem (fun y : Enrollment =>
    if y.id = eid then { y with status := "completed", updated_at := upd }
    else y) hx
  simpa [he] using h2

/-- The due batch never exceeds the requested batch size. -/
theorem dueList_length_le (db : DB) (now : Int) (batch : Nat) :
    (dueList db now batch).length ≤ batch := by
  unfold dueList
  dsimp only
  rw [List.length_take]
  exact min_le_left _ _

/-! ## Claim C3 -/

/-- C3.  When a due enrollment that reaches the rate-limit gate finds the
budget exhausted, the loop returns immediately with only the processed
counter bumped: the remaining due enrollments are neither examined nor
mutated, the store (enrollments, sends, rate state) is exactly the
incoming one, whatever the rest of the batch holds. -/
theorem tick_rate_limit_stops_tick (env : Env) (allowed qs now : Int)
    (e : Enrollment) (c : Contact) (rest : List (Enrollment × Contact))
    (st : TickSt)
    (hsupp : st.db.suppressions.contains e.contact_id = false)
    (hstep : (stepQuery st.db.steps e.campaign_id e.next_step_order).isSome = true)
    (hrate : allowed < st.db.config.rate_count.getD 0 + 1) :
    tickLoop env allowed true qs now ((e, c) :: rest) st
      = .ok { st with counts :=
          { st.counts with processed := st.counts.processed + 1 } } := by
  obtain ⟨s, hs⟩ := Option.isSome_iff_exists.mp hstep
  rw [tickLoop]
  have hse : stepEnroll env allowed true qs now (e, c) st
      = .stop { st with counts :=
          { st.counts with processed := st.counts.processed + 1 } } := by
    unfold stepEnroll
    dsimp only
    rw [if_neg (by simpa using hsupp)]
    rw [hs]
    dsimp only
    rw [if_neg (by simp)]
    have hr : rlTake allowed 1 st.db.config = (false, st.db.config) := by
      simp [rlTake, hrate]
    rw [hr]
  rw [hse]

/-- Witness for C3: a batch of two due enrollments over an exhausted
bucket (count 5 of allowance 5) stops after bumping processed once. -/
theorem tick_rate_limit_stops_tick_witness :
    tickLoop envC1 5 true 9 600 [(enrC1, contactC1), (enrC3b, contactC1)] stC3
      = .ok { stC3 with counts :=
          { stC3.counts with processed := stC3.counts.processed + 1 } } :=
  tick_rate_limit_stops_tick envC1 5 9 600 enrC1 contactC1
    [(enrC3b, contactC1)] stC3 (by decide) (by decide) (by decide)

/-! ## Claim C6 -/

/-- C6.  A due enrollment of a suppressed contact writes no send-log row
and leaves the whole configuration (hence the rate budget) untouched, yet
advances: the pointer moves to the step after next_step_order with
next_run_at now plus that delay, or the enrollment is marked completed
when no such step exists; suppressed and processed are each counted
once and the other rows are untouched. -/
theorem tick_suppressed_advances_without_send (env : Env) (allowed : Int)
    (okW : Bool) (qs now : Int) (e : Enrollment) (c : Contact)
    (rest : List (Enrollment × Contact)) (st : TickSt)
    (hsupp : st.db.suppressions.contains e.contact_id = true) :
    ∃ st1, tickLoop env allowed okW qs now ((e, c) :: rest) st
        = tickLoop env allowed okW qs now rest st1
      ∧ st1.db.sends = st.db.sends
      ∧ st1.db.config = st.db.config
      ∧ st1.counts.suppressed = st.counts.suppressed + 1
      ∧ st1.counts.processed = st.counts.processed + 1
      ∧ (∀ x ∈ st.db.enrollments, x.id ≠ e.id → x ∈ st1.db.enrollments)
      ∧ (∀ s2, stepQuery st.db.steps e.campaign_id (e.next_step_order + 1) = some s2 →
          ∀ x ∈ st.db.enrollments, x.id = e.id →
            ({ x with next_step_order := e.next_step_order + 1,
                      next_run_at := now + s2.delay_minutes,
                      last_sent_at := none, updated_at := now } : Enrollment)
              ∈ st1.db.enrollments)
      ∧ (stepQuery st.db.steps e.campaign_id (e.next_step_order + 1) = none →
          ∀ x ∈ st.db.enrollments, x.id = e.id →
            ({ x with status := "completed", updated_at := now } : Enrollment)
              ∈ st1.db.enrollments) := by
  cases hq : stepQuery st.db.steps e.campaign_id (e.next_step_order + 1) with
  | some s2 =>
    have hse : stepEnroll env allowed okW qs now (e, c) st
        = .cont { st with
            db := { st.db with enrollments := updEnroll st.db.enrollments e.id (e.next_step_order + 1) (now + s2.delay_minutes) none now },
            counts := { st.counts with
              processed := st.counts.processed + 1,
              suppressed := st.counts.suppressed + 1 } } := by
      unfold stepEnroll
      dsimp only
      rw [if_pos (by simpa using hsupp)]
      rw [hq]
    refine ⟨(stepEnroll env allowed okW qs now (e, c) st).state,
      ?_, ?_, ?_, ?_, ?_, ?_, ?_, ?_⟩
    · rw [tickLoop, hse]
      try rfl
    · rw [hse]
      try rfl
    · rw [hse]
      try rfl
    · rw [hse]
      try rfl
    · rw [hse]
      try rfl
    · rw [hse]
      dsimp only [StepOut.state]
      intro x hx hne
      exact updEnroll_mem_other hx hne
    · rw [hse]
      dsimp only [StepOut.state]
      intro s2b hs2b x hx he
      cases hs2b
      exact updEnroll_mem_target hx he
    · rw [hse]
      intro hnone
      cases hnone
  | none =>
    have hse : stepEnroll env allowed okW qs now (e, c) st
        = .cont { st with
            db := { st.db with enrollments := markDone st.db.enrollments e.id now },
            counts := { st.counts with
              processed := st.counts.processed + 1,
              suppressed := st.counts.suppressed + 1,
              completed := st.counts.completed + 1 } } := by
      unfold stepEnroll
      dsimp only
      rw [if_pos (by simpa using hsupp)]
      rw [hq]
    refine ⟨(stepEnroll env allowed okW qs now (e, c) st).state,
      ?_, ?_, ?_, ?_, ?_, ?_, ?_, ?_⟩
    · rw [tickLoop, hse]
      try rfl
    · rw [hse]
      try rfl
    · rw [hse]
      try rfl
    · rw [hse]
      try rfl
    · rw [hse]
      try rfl
    · rw [hse]
      dsimp only [StepOut.state]
      intro x hx hne
      exact markDone_mem_other hx hne
    · rw [hse]
      intro s2b hs2b x hx he
      cases hs2b
    · rw [hse]
      dsimp only [StepOut.state]
      intro hnone x hx he
      exact markDone_mem_target hx he

/-- Witness for C6 at a suppressed contact with a step after the
pointer. -/
theorem tick_suppressed_advances_without_send_witness :
    ∃ st1, tickLoop envC1 200 true 9 600 [(enrC1, contactC1)] stC6
        = tickLoop envC1 200 true 9 600 [] st1
      ∧ st1.db.sends = stC6.db.sends
      ∧ st1.db.config = stC6.db.config
      ∧ st1.counts.suppressed = stC6.counts.suppressed + 1
      ∧ st1.counts.processed = stC6.counts.processed + 1
      ∧ (∀ x ∈ stC6.db.enrollments, x.id ≠ enrC1.id → x ∈ st1.db.enrollments)
      ∧ (∀ s2, stepQuery stC6.db.steps enrC1.campaign_id (enrC1.next_step_order + 1) = some s2 →
          ∀ x ∈ stC6.db.enrollments, x.id = enrC1.id →
            ({ x with next_step_order := enrC1.next_step_order + 1,
                      next_run_at := 600 + s2.delay_minutes,
                      last_sent_at := none, updated_at := 600 } : Enrollment)
              ∈ st1.db.enrollments)
      ∧ (stepQuery stC6.db.steps enrC1.campaign_id (enrC1.next_step_order + 1) = none →
          ∀ x ∈ stC6.db.enrollments, x.id = enrC1.id →
            ({ x with status := "completed", updated_at := 600 } : Enrollment)
              ∈ st1.db.enrollments) :=
  tick_suppressed_advances_without_send envC1 200 true 9 600 enrC1 contactC1
    [] stC6 (by decide)

/-! ## Claim C7 -/

/-- C7.  With the quiet-hours window closed, a due, non-suppressed
enrollment whose current step exists is not sent: the send log and the
configuration (hence the rate budget) stay untouched, skipped_quiet and
processed are each counted once, completed does not move, other rows are
untouched, and the row is rescheduled to tomorrow at the quiet start
hour with next_step_order and last_sent_at carried over unchanged. -/
theorem tick_quiet_hours_defers (env : Env) (allowed qs qe now : Int)
    (e : Enrollment) (c : Contact) (rest : List (Enrollment × Contact))
    (st : TickSt) (step : Step)
    (hsupp : st.db.suppressions.contains e.contact_id = false)
    (hstep : stepQuery st.db.steps e.campaign_id e.next_step_order = some step)
    (hq : withinQuietHours (localHour now) qs qe = false) :
    ∃ st1, tickLoop env allowed (withinQuietHours (localHour now) qs qe) qs now
          ((e, c) :: rest) st
        = tickLoop env allowed (withinQuietHours (localHour now) qs qe) qs now rest st1
      ∧ st1.db.sends = st.db.sends
      ∧ st1.db.config = st.db.config
      ∧ st1.counts.skipped_quiet = st.counts.skipped_quiet + 1
      ∧ st1.counts.processed = st.counts.processed + 1
      ∧ st1.counts.completed = st.counts.completed
      ∧ (∀ x ∈ st.db.enrollments, x.id ≠ e.id → x ∈ st1.db.enrollments)
      ∧ (∀ x ∈ st.db.enrollments, x.id = e.id →
          ({ x with next_step_order := e.next_step_order,
                    next_run_at := tomorrowAtHour now qs,
                    last_sent_at := e.last_sent_at, updated_at := now } : Enrollment)
            ∈ st1.db.enrollments) := by
  rw [hq]
  have hse : stepEnroll env allowed false qs now (e, c) st
      = .cont { st with
          db := { st.db with enrollments := updEnroll st.db.enrollments e.id e.next_step_order (tomorrowAtHour now qs) e.last_sent_at now },
          counts := { st.counts with
            processed := st.counts.processed + 1,
            skipped_quiet := st.counts.skipped_quiet + 1 } } := by
    unfold stepEnroll
    dsimp only
    rw [if_neg (by simpa using hsupp)]
    rw [hstep]
    dsimp only
    rw [if_pos rfl]
  refine ⟨(stepEnroll env allowed false qs now (e, c) st).state,
    ?_, ?_, ?_, ?_, ?_, ?_, ?_, ?_⟩
  · rw [tickLoop, hse]
    try rfl
  · rw [hse]
    try rfl
  · rw [hse]
    try rfl
  · rw [hse]
    try rfl
  · rw [hse]
    try rfl
  · rw [hse]
    try rfl
  · rw [hse]
    dsimp only [StepOut.state]
    intro x hx hne
    exact updEnroll_mem_other hx hne
  · rw [hse]
    dsimp only [StepOut.state]
    intro x hx he
    exact updEnroll_mem_target hx he

/-- Witness for C7 at the scenario of the spec: window 9 to 18, tick at
21:00 of day zero, reschedule to day one at 09:00. -/
theorem tick_quiet_hours_defers_witness :
    ∃ st1, tickLoop envC1 200 (withinQuietHours (localHour 1260) 9 18) 9 1260
          [(enrC1, contactC1)] stC7
        = tickLoop envC1 200 (withinQuietHours (localHour 1260) 9 18) 9 1260 [] st1
      ∧ st1.db.sends = stC7.db.sends
      ∧ st1.db.config = stC7.db.config
      ∧ st1.counts.skipped_quiet = stC7.counts.skipped_quiet + 1
      ∧ st1.counts.processed = stC7.counts.processed + 1
      ∧ st1.counts.completed = stC7.counts.completed
      ∧ (∀ x ∈ stC7.db.enrollments, x.id ≠ enrC1.id → x ∈ st1.db.enrollments)
      ∧ (∀ x ∈ stC7.db.enrollments, x.id = enrC1.id →
          ({ x with next_step_order := enrC1.next_step_order,
                    next_run_at := tomorrowAtHour 1260 9,
                    last_sent_at := enrC1.last_sent_at, updated_at := 1260 } : Enrollment)
            ∈ st1.db.enrollments) :=
  tick_quiet_hours_defers envC1 200 9 18 1260 enrC1 contactC1 [] stC7 stepC1
    (by decide) (by decide) (by decide)

/-! ## Claim C1 -/

/-- C1, counterexample.  With the transport returning a failure result
(the exact fallback of the shipped adapter), the tick logs the entry with
status queued, not failed: no failed entry exists anywhere in the send
log although the send was attempted and the transport reported failure. -/
theorem tick_transport_failure_not_marked_failed_cex :
    (finalSt (marketingTick envC1 600 50 dbC1)).db.sends.map SendRow.status
      = ["queued"]
    ∧ envC1.transport 0 = Except.ok resC1
    ∧ resC1.ok = false
    ∧ ∀ s ∈ (finalSt (marketingTick envC1 600 50 dbC1)).db.sends,
        s.status ≠ "failed" := by
  refine ⟨by decide, rfl, rfl, by decide⟩

/-- C1, amended.  A transport call that returns a failure result is
logged with the status the transport reported, defaulting to queued (not
failed) when it reports none; the tick is not aborted and the enrollment
still advances to the next step or completes.  A transport call that
throws, however, aborts the remainder of the tick, leaving the send log
and the enrollment table as they were. -/
theorem tick_transport_failure_logs_reported_status :
    (∀ (env : Env) (allowed qs now : Int) (e : Enrollment) (c : Contact)
      (rest : List (Enrollment × Contact)) (st : TickSt) (step : Step)
      (r : SendResult),
      st.db.suppressions.contains e.contact_id = false →
      stepQuery st.db.steps e.campaign_id e.next_step_order = some step →
      st.db.config.rate_count.getD 0 + 1 ≤ allowed →
      env.transport st.sendIx = .ok r →
      r.ok = false →
      ∃ st1, tickLoop env allowed true qs now ((e, c) :: rest) st
          = tickLoop env allowed true qs now rest st1
        ∧ (∃ row : SendRow, st1.db.sends = st.db.sends ++ [row]
            ∧ row.status = orJs r.status "queued"
            ∧ row.contact_id = e.contact_id
            ∧ row.campaign_id = e.campaign_id
            ∧ row.step_order = e.next_step_order)
        ∧ (∀ s2, stepQuery st.db.steps e.campaign_id (e.next_step_order + 1) = some s2 →
            ∀ x ∈ st.db.enrollments, x.id = e.id →
              ({ x with next_step_order := e.next_step_order + 1,
                        next_run_at := now + s2.delay_minutes,
                        last_sent_at := some now, updated_at := now } : Enrollment)
                ∈ st1.db.enrollments)
        ∧ (stepQuery st.db.steps e.campaign_id (e.next_step_order + 1) = none →
            ∀ x ∈ st.db.enrollments, x.id = e.id →
              ({ x with status := "completed", updated_at := now } : Enrollment)
                ∈ st1.db.enrollments))
    ∧ (∀ (env : Env) (allowed qs now : Int) (e : Enrollment) (c : Contact)
      (rest : List (Enrollment × Contact)) (st : TickSt) (step : Step),
      st.db.suppressions.contains e.contact_id = false →
      stepQuery st.db.steps e.campaign_id e.next_step_order = some step →
      st.db.config.rate_count.getD 0 + 1 ≤ allowed →
      env.transport st.sendIx = .error () →
      ∃ stE, tickLoop env allowed true qs now ((e, c) :: rest) st = .error stE
        ∧ stE.db.sends = st.db.sends
        ∧ stE.db.enrollments = st.db.enrollments) := by
  constructor
  · intro env allowed qs now e c rest st step r hsupp hstep hrate htr hok
    have hnot : ¬(st.db.config.rate_count.getD 0 + 1 > allowed) := by omega
    have hr : rlTake allowed 1 st.db.config
        = (true, { st.db.config with
            rate_count := some (st.db.config.rate_count.getD 0 + 1) }) := by
      simp [rlTake, hnot]
    cases hq2 : stepQuery st.db.steps e.campaign_id (e.next_step_order + 1) with
    | some s2 =>
      have key : ∃ st1, stepEnroll env allowed true qs now (e, c) st = .cont st1
          ∧ (∃ row : SendRow, st1.db.sends = st.db.sends ++ [row]
              ∧ row.status = orJs r.status "queued"
              ∧ row.contact_id = e.contact_id ∧ row.campaign_id = e.campaign_id
              ∧ row.step_order = e.next_step_order)
          ∧ (∀ x ∈ st.db.enrollments, x.id = e.id →
              ({ x with next_step_order := e.next_step_order + 1,
                        next_run_at := now + s2.delay_minutes,
                        last_sent_at := some now, updated_at := now } : Enrollment)
                ∈ st1.db.enrollments) := by
        unfold stepEnroll
        dsimp only
        rw [if_neg (by simpa using hsupp)]
        rw [hstep]
        dsimp only
        rw [if_neg (by simp)]
        rw [hr]
        dsimp only
        rw [htr]
        dsimp only
        rw [hq2]
        refine ⟨_, rfl, ⟨_, rfl, ?_, rfl, rfl, rfl⟩, ?_⟩
        · simp [hok]
        · intro x hx he
          dsimp only
          exact updEnroll_mem_target hx he
      obtain ⟨st1, hs1, hrow, hadv⟩ := key
      refine ⟨st1, by rw [tickLoop, hs1], hrow, ?_, ?_⟩
      · intro s2b hs2b x hx he
        cases hs2b
        exact hadv x hx he
      · intro hnone
        cases hnone
    | none =>
      have key : ∃ st1, stepEnroll env allowed true qs now (e, c) st = .cont st1
          ∧ (∃ row : SendRow, st1.db.sends = st.db.sends ++ [row]
              ∧ row.status = orJs r.status "queued"
              ∧ row.contact_id = e.contact_id ∧ row.campaign_id = e.campaign_id
              ∧ row.step_order = e.next_step_order)
          ∧ (∀ x ∈ st.db.enrollments, x.id = e.id →
              ({ x with status := "completed", updated_at := now } : Enrollment)
                ∈ st1.db.enrollments) := by
        unfold stepEnroll
        dsimp only
        rw [if_neg (by simpa using hsupp)]
        rw [hstep]
        dsimp only
        rw [if_neg (by simp)]
        rw [hr]
        dsimp only
        rw [htr]
        dsimp only
        rw [hq2]
        refine ⟨_, rfl, ⟨_, rfl, ?_, rfl, rfl, rfl⟩, ?_⟩
        · simp [hok]
        · intro x hx he
          dsimp only
          exact markDone_mem_target hx he
      obtain ⟨st1, hs1, hrow, hadv⟩ := key
      refine ⟨st1, by rw [tickLoop, hs1], hrow, ?_, ?_⟩
      · intro s2b hs2b
        cases hs2b
      · intro _ x hx he
        exact hadv x hx he
  · intro env allowed qs now e c rest st step hsupp hstep hrate htr
    have hnot : ¬(st.db.config.rate_count.getD 0 + 1 > allowed) := by omega
    have hr : rlTake allowed 1 st.db.config
        = (true, { st.db.config with
            rate_count := some (st.db.config.rate_count.getD 0 + 1) }) := by
      simp [rlTake, hnot]
    have key : ∃ stE, stepEnroll env allowed true qs now (e, c) st = .fail stE := by
      unfold stepEnroll
      dsimp only
      rw [if_neg (by simpa using hsupp)]
      rw [hstep]
      dsimp only
      rw [if_neg (by simp)]
      rw [hr]
      dsimp only
      rw [htr]
      exact ⟨_, rfl⟩
    obtain ⟨stE, hsE⟩ := key
    have hff := stepEnroll_fail env allowed true qs now (e, c) st stE hsE
    exact ⟨stE, by rw [tickLoop, hsE], hff.2, hff.1⟩

/-- Witness for the amended C1: the failure-result case at the fallback
adapter result, and the thrown case at a throwing transport. -/
theorem tick_transport_failure_logs_reported_status_witness :
    (∃ st1, tickLoop envC1 200 true 9 600 [(enrC1, contactC1)] stC1
        = tickLoop envC1 200 true 9 600 [] st1
      ∧ (∃ row : SendRow, st1.db.sends = stC1.db.sends ++ [row]
          ∧ row.status = orJs resC1.status "queued"
          ∧ row.contact_id = enrC1.contact_id
          ∧ row.campaign_id = enrC1.campaign_id
          ∧ row.step_order = enrC1.next_step_order)
      ∧ (∀ s2, stepQuery stC1.db.steps enrC1.campaign_id (enrC1.next_step_order + 1) = some s2 →
          ∀ x ∈ stC1.db.enrollments, x.id = enrC1.id →
            ({ x with next_step_order := enrC1.next_step_order + 1,
                      next_run_at := 600 + s2.delay_minutes,
                      last_sent_at := some 600, updated_at := 600 } : Enrollment)
              ∈ st1.db.enrollments)
      ∧ (stepQuery stC1.db.steps enrC1.campaign_id (enrC1.next_step_order + 1) = none →
          ∀ x ∈ stC1.db.enrollments, x.id = enrC1.id →
            ({ x with status := "completed", updated_at := 600 } : Enrollment)
              ∈ st1.db.enrollments))
    ∧ (∃ stE, tickLoop envC1e 200 true 9 600 [(enrC1, contactC1)] stC1 = .error stE
        ∧ stE.db.sends = stC1.db.sends
        ∧ stE.db.enrollments = stC1.db.enrollments) :=
  ⟨tick_transport_failure_logs_reported_status.1 envC1 200 9 600 enrC1 contactC1
     [] stC1 stepC1 resC1 (by decide) (by decide) (by decide) rfl rfl,
   tick_transport_failure_logs_reported_status.2 envC1e 200 9 600 enrC1 contactC1
     [] stC1 stepC1 (by decide) (by decide) (by decide) rfl⟩

/-! ## Claim C4 -/

/-- C4.  Advancing an enrollment looks up the step with the exact next
integer order: a due enrollment whose current step lookup comes back
empty is marked completed immediately and the loop continues; and any
row completed by a tick either was completed already or belongs to a
processed due enrollment for which the exact-order lookup at its pointer
or at its successor came back empty, so this is the only way the tick
completes a healthy enrollment. -/
theorem tick_exact_successor_completion :
    (∀ (env : Env) (allowed : Int) (okW : Bool) (qs now : Int) (e : Enrollment)
      (c : Contact) (rest : List (Enrollment × Contact)) (st : TickSt),
      st.db.suppressions.contains e.contact_id = false →
      stepQuery st.db.steps e.campaign_id e.next_step_order = none →
      tickLoop env allowed okW qs now ((e, c) :: rest) st
        = tickLoop env allowed okW qs now rest
            { st with
              db := { st.db with enrollments := markDone st.db.enrollments e.id now },
              counts := { st.counts with
                processed := st.counts.processed + 1,
                completed := st.counts.completed + 1 } })
    ∧ (∀ (env : Env) (allowed : Int) (okW : Bool) (qs now : Int)
        (due : List (Enrollment × Contact)) (st : TickSt),
        ∀ y ∈ (finalSt (tickLoop env allowed okW qs now due st)).db.enrollments,
          y.status = "completed" →
          (∃ y0 ∈ st.db.enrollments, y0.id = y.id ∧ y0.status = "completed")
          ∨ (∃ p ∈ due, y.id = p.1.id
              ∧ (stepQuery st.db.steps p.1.campaign_id p.1.next_step_order = none
                 ∨ stepQuery st.db.steps p.1.campaign_id (p.1.next_step_order + 1) = none))) := by
  constructor
  · intro env allowed okW qs now e c rest st hsupp hnone
    have hse : stepEnroll env allowed okW qs now (e, c) st
        = .cont { st with
            db := { st.db with enrollments := markDone st.db.enrollments e.id now },
            counts := { st.counts with
              processed := st.counts.processed + 1,
              completed := st.counts.completed + 1 } } := by
      unfold stepEnroll
      dsimp only
      rw [if_neg (by simpa using hsupp)]
      rw [hnone]
    rw [tickLoop, hse]
  · intro env allowed okW qs now due st
    exact tickLoop_completed env allowed okW qs now due st

/-- Witness for C4: a campaign with a gap at the pointer completes the
enrollment at once, and the completed row traces back to the empty
exact-order lookup. -/
theorem tick_exact_successor_completion_witness :
    (tickLoop envC1 200 true 9 600 [(enrC1, contactC1)] stC4
      = tickLoop envC1 200 true 9 600 []
          { stC4 with
            db := { stC4.db with enrollments := markDone stC4.db.enrollments enrC1.id 600 },
            counts := { stC4.counts with
              processed := stC4.counts.processed + 1,
              completed := stC4.counts.completed + 1 } })
    ∧ ((∃ y0 ∈ stC4.db.enrollments, y0.id = enrDoneC4.id ∧ y0.status = "completed")
        ∨ (∃ p ∈ [(enrC1, contactC1)], enrDoneC4.id = p.1.id
            ∧ (stepQuery stC4.db.steps p.1.campaign_id p.1.next_step_order = none
               ∨ stepQuery stC4.db.steps p.1.campaign_id (p.1.next_step_order + 1) = none))) :=
  ⟨tick_exact_successor_completion.1 envC1 200 true 9 600 enrC1 contactC1 []
     stC4 (by decide) (by decide),
   tick_exact_successor_completion.2 envC1 200 true 9 600 [(enrC1, contactC1)]
     stC4 enrDoneC4 (by decide) (by decide)⟩

/-! ## Claim C9 -/

/-- C9.  The counters returned by a successful tick satisfy processed at
most the batch size, sent + queued + suppressed + skipped_quiet at most
processed (each processed enrollment bumps at most one of the four), and
completed at most processed. -/
theorem tick_counts_invariant (env : Env) (now : Int) (batch : Nat) (db : DB)
    (out : TickSt) (h : marketingTick env now batch db = .ok out) :
    out.counts.processed ≤ batch
    ∧ out.counts.sent + out.counts.queued + out.counts.suppressed
        + out.counts.skipped_quiet ≤ out.counts.processed
    ∧ out.counts.completed ≤ out.counts.processed := by
  unfold marketingTick at h
  dsimp only at h
  have hc := tickLoop_counts _ _ _ _ _ _ _ _ h
  have hlen := dueList_length_le
    { db with config := rlInit (bucketOf now) (ensureConfig db.config) } now batch
  dsimp only at hc
  omega

/-- Witness for C9 at a one-enrollment store and batch 50. -/
theorem tick_counts_invariant_witness :
    (finalSt (marketingTick envC1 600 50 dbC9)).counts.processed ≤ 50
    ∧ (finalSt (marketingTick envC1 600 50 dbC9)).counts.sent
        + (finalSt (marketingTick envC1 600 50 dbC9)).counts.queued
        + (finalSt (marketingTick envC1 600 50 dbC9)).counts.suppressed
        + (finalSt (marketingTick envC1 600 50 dbC9)).counts.skipped_quiet
      ≤ (finalSt (marketingTick envC1 600 50 dbC9)).counts.processed
    ∧ (finalSt (marketingTick envC1 600 50 dbC9)).counts.completed
      ≤ (finalSt (marketingTick envC1 600 50 dbC9)).counts.processed :=
  tick_counts_invariant envC1 600 50 dbC9
    (finalSt (marketingTick envC1 600 50 dbC9)) (by rfl)

end CMS
